import Mathlib

set_option autoImplicit false

/-! Verification development for the gt4py staged build pipeline and its
field-access and boundary analyses.  Python dictionaries are embedded as
insertion-ordered association lists over string keys; the build context is a
structure of optional slots, one per context key used by the pipeline; the
frontend and backend collaborators are bundled as an environment of abstract
deterministic functions. -/

/-! ## Association lists modelling insertion-ordered Python dicts -/

def dget {α : Type} : List (String × α) → String → Option α
  | [], _ => none
  | p :: rest, k => if p.1 = k then some p.2 else dget rest k

def dset {α : Type} : List (String × α) → String → α → List (String × α)
  | [], k, v => [(k, v)]
  | p :: rest, k, v => if p.1 = k then (k, v) :: rest else p :: dset rest k v

def dpop {α : Type} (d : List (String × α)) (k : String) : List (String × α) :=
  d.filter (fun p => p.1 ≠ k)

def dkeys {α : Type} (d : List (String × α)) : List String :=
  d.map Prod.fst

theorem dget_dset {α : Type} (d : List (String × α)) (k : String) (v : α) (k2 : String) :
    dget (dset d k v) k2 = if k = k2 then some v else dget d k2 := by
  induction d with
  | nil => simp [dset, dget]
  | cons p rest ih =>
    by_cases h : p.1 = k
    · subst h
      simp only [dset, if_pos rfl, dget]
      by_cases h2 : p.1 = k2 <;> simp [h2, dget]
    · have hk : ¬k = p.1 := fun e => h e.symm
      simp only [dset, if_neg h, dget, ih]
      by_cases h2 : p.1 = k2
      · subst h2
        simp [if_neg hk]
      · simp [h2]

theorem dset_dset {α : Type} (d : List (String × α)) (k : String) (v w : α) :
    dset (dset d k v) k w = dset d k w := by
  induction d with
  | nil => simp [dset]
  | cons p rest ih =>
    by_cases h : p.1 = k
    · simp [dset, h]
    · simp [dset, h, ih]

theorem dset_of_dget_none {α : Type} (d : List (String × α)) (k : String) (v : α)
    (h : dget d k = none) : dset d k v = d ++ [(k, v)] := by
  induction d with
  | nil => simp [dset]
  | cons p rest ih =>
    simp only [dget] at h
    by_cases hp : p.1 = k
    · simp [hp] at h
    · simp only [dset, if_neg hp, List.cons_append, List.cons.injEq, true_and]
      exact ih (by simpa [hp] using h)

/-! ## C1: the OIR access collector

The gtc OIR node types and the AccessCollector pass are exercised by the test
suite but their implementation is not part of this tree; they are modelled
from the specification below. -/

namespace oir

/-- Modelled from the spec: a field access of the gtc OIR (missing from this
tree), carrying a field name and a signed 3-axis integer offset. -/
structure FieldAccess where
  name : String
  offset : Int × Int × Int
deriving DecidableEq

/-- Modelled from the spec: an OIR assignment statement (missing from this
tree) with a left-hand write target, always at relative offset (0,0,0) on its
own field, and zero or more right-hand field accesses. -/
structure AssignStmt where
  left : String
  right : List FieldAccess
deriving DecidableEq

/-- Modelled from the spec: an OIR horizontal execution block (missing from
this tree) with an ordered statement list and an optional guarding mask, a
boolean field access. -/
structure HorizontalExecution where
  body : List AssignStmt
  mask : Option FieldAccess
deriving DecidableEq

/-- Modelled from the spec: an OIR vertical loop (missing from this tree)
containing horizontal execution blocks. -/
structure VerticalLoop where
  horizontal_executions : List HorizontalExecution
deriving DecidableEq

/-- Modelled from the spec: an OIR stencil program (missing from this tree),
an ordered list of vertical loops. -/
structure Stencil where
  vertical_loops : List VerticalLoop
deriving DecidableEq

end oir

namespace AccessCollector

/-- Modelled from the spec: the read accesses one horizontal execution block
contributes to the AccessCollector result (the collector itself is missing
from this tree): every right-hand field access of every statement at its
recorded offset, plus, if the block carries a guarding condition, a read of
the field referenced by the condition at its offset. -/
def hexec_reads (he : oir.HorizontalExecution) : List (String × (Int × Int × Int)) :=
  ((he.body.map (fun st => st.right.map (fun a => (a.name, a.offset)))).flatten) ++
    (match he.mask with
     | some m => [(m.name, m.offset)]
     | none => [])

/-- Modelled from the spec: all read accesses collected by AccessCollector
(missing from this tree) over every vertical loop and horizontal execution. -/
def reads (s : oir.Stencil) : List (String × (Int × Int × Int)) :=
  ((s.vertical_loops.map (fun vl => ((vl.horizontal_executions.map hexec_reads).flatten))).flatten)

/-- Modelled from the spec: all write accesses collected by AccessCollector
(missing from this tree): one write at offset (0,0,0) for the left-hand field
of every statement. -/
def writes (s : oir.Stencil) : List (String × (Int × Int × Int)) :=
  ((s.vertical_loops.map (fun vl =>
    ((vl.horizontal_executions.map (fun he =>
      he.body.map (fun st => (st.left, ((0 : Int), (0 : Int), (0 : Int)))))).flatten))).flatten)

end AccessCollector

/-- The concrete two-horizontal-execution program built in the access
collector test: one block assigns foo shifted by (1,0,0) into tmp then copies
tmp into bar; the other assigns tmp shifted by (0,1,0) into baz under a mask
read at (-1,-1,1). -/
def access_testee : oir.Stencil :=
  { vertical_loops := [
      { horizontal_executions := [
          { body := [
              { left := "tmp", right := [{ name := "foo", offset := (1, 0, 0) }] },
              { left := "bar", right := [{ name := "tmp", offset := (0, 0, 0) }] } ],
            mask := none },
          { body := [
              { left := "baz", right := [{ name := "tmp", offset := (0, 1, 0) }] } ],
            mask := some { name := "mask", offset := (-1, -1, 1) } } ] } ] }

def expected_reads : List (String × (Int × Int × Int)) :=
  [("tmp", (0, 0, 0)), ("tmp", (0, 1, 0)), ("foo", (1, 0, 0)), ("mask", (-1, -1, 1))]

def expected_writes : List (String × (Int × Int × Int)) :=
  [("tmp", (0, 0, 0)), ("bar", (0, 0, 0)), ("baz", (0, 0, 0))]

/-- C1: on the concrete two-horizontal-execution program of the access
collector test, the collector returns exactly the expected read sets
(tmp at (0,0,0) and (0,1,0), foo at (1,0,0), mask at (-1,-1,1)) and write
sets (tmp, bar, baz each at (0,0,0)); in particular the mask-only field
appears in the read sets with its offset and masked statements contribute
their full footprint. -/
theorem access_collector_on_testee :
    (AccessCollector.reads access_testee).toFinset = expected_reads.toFinset ∧
      (AccessCollector.writes access_testee).toFinset = expected_writes.toFinset := by
  constructor <;> decide

/-! ## C2: the gtir fields metadata pass

The gtir node types and the FieldsMetadataPass are exercised by the test
suite but their implementation is not part of this tree; they are modelled
from the specification below. -/

namespace gtir

/-- Modelled from the spec: a signed cartesian offset of the gtir (missing
from this tree). -/
structure CartesianOffset where
  i : Int
  j : Int
  k : Int
deriving DecidableEq

def CartesianOffset.zero : CartesianOffset := { i := 0, j := 0, k := 0 }

/-- Modelled from the spec: a gtir field access (missing from this tree). -/
structure FieldAccess where
  name : String
  offset : CartesianOffset
deriving DecidableEq

def FieldAccess.centered (name : String) : FieldAccess :=
  { name := name, offset := CartesianOffset.zero }

/-- Modelled from the spec: a gtir assignment statement (missing from this
tree): a left-hand write target and the field accesses of the right-hand
expression tree. -/
structure AssignStmt where
  left : FieldAccess
  right : List FieldAccess
deriving DecidableEq

/-- Modelled from the spec: a gtir horizontal loop (missing from this tree). -/
structure HorizontalLoop where
  stmt : AssignStmt
deriving DecidableEq

inductive LevelMarker where
  | START
  | END
deriving DecidableEq

/-- Modelled from the spec: a symbolic axis bound (missing from this tree). -/
structure AxisBound where
  level : LevelMarker
  offset : Int
deriving DecidableEq

/-- Modelled from the spec: a gtir vertical interval (missing from this
tree), bounded by symbolic axis bounds. -/
structure VerticalInterval where
  interval_start : AxisBound
  interval_end : AxisBound
  horizontal_loops : List HorizontalLoop
deriving DecidableEq

inductive LoopOrder where
  | FORWARD
  | BACKWARD
  | PARALLEL
deriving DecidableEq

/-- Modelled from the spec: a gtir vertical loop (missing from this tree). -/
structure VerticalLoop where
  loop_order : LoopOrder
  vertical_intervals : List VerticalInterval
deriving DecidableEq

/-- Modelled from the spec: a gtir stencil (missing from this tree). -/
structure Stencil where
  vertical_loops : List VerticalLoop
deriving DecidableEq

/-- Modelled from the spec: a gtir field declaration (missing from this
tree). -/
structure FieldDecl where
  name : String
  dtype : String
deriving DecidableEq

/-- Modelled from the spec: a gtir computation (missing from this tree). -/
structure Computation where
  name : String
  params : List FieldDecl
  stencils : List Stencil
deriving DecidableEq

/-- Modelled from the spec: per-axis pairs of nonnegative halo margins
(missing from this tree). -/
structure FieldBoundary where
  i : Nat × Nat
  j : Nat × Nat
  k : Nat × Nat
deriving DecidableEq

end gtir

/-- Modelled from the spec: the accesses contributed by one gtir assignment,
namely the left-hand write target and every right-hand access. -/
def stmt_accesses (s : gtir.AssignStmt) : List gtir.FieldAccess :=
  s.left :: s.right

/-- Modelled from the spec: all field accesses of a gtir computation, scanned
by the FieldsMetadataPass (missing from this tree). -/
def computation_accesses (c : gtir.Computation) : List gtir.FieldAccess :=
  ((c.stencils.map (fun st =>
    ((st.vertical_loops.map (fun vl =>
      ((vl.vertical_intervals.map (fun vi =>
        ((vi.horizontal_loops.map (fun hl => stmt_accesses hl.stmt)).flatten))).flatten))).flatten))).flatten)

/-- Modelled from the spec: the offsets observed for one field across the
whole program. -/
def observed_offsets (c : gtir.Computation) (f : String) : List gtir.CartesianOffset :=
  ((computation_accesses c).filter (fun a => a.name = f)).map (fun a => a.offset)

/-- Modelled from the spec: the incremental per-axis margin update of the
FieldsMetadataPass (missing from this tree) when one more offset on that axis
is observed. -/
def axis_update (m : Nat × Nat) (o : Int) : Nat × Nat :=
  (max m.1 (-o).toNat, max m.2 o.toNat)

/-- Modelled from the spec: the incremental boundary update for one observed
offset. -/
def boundary_update (b : gtir.FieldBoundary) (o : gtir.CartesianOffset) : gtir.FieldBoundary :=
  { i := axis_update b.i o.i, j := axis_update b.j o.j, k := axis_update b.k o.k }

def zero_boundary : gtir.FieldBoundary :=
  { i := (0, 0), j := (0, 0), k := (0, 0) }

/-- Modelled from the spec: the boundary a list of observed offsets folds
into, starting from all-zero margins. -/
def boundary_from (os : List gtir.CartesianOffset) : gtir.FieldBoundary :=
  os.foldl boundary_update zero_boundary

/-- Modelled from the spec: the FieldsMetadataPass (missing from this tree),
which computes, per declared field, the boundary aggregated from every offset
observed for it anywhere in the program. -/
def fields_metadata_pass (c : gtir.Computation) : List (String × gtir.FieldBoundary) :=
  c.params.map (fun p => (p.name, boundary_from (observed_offsets c p.name)))

def list_min : List Int → Int
  | [] => 0
  | x :: xs => xs.foldl min x

def list_max : List Int → Int
  | [] => 0
  | x :: xs => xs.foldl max x

theorem foldl_min_shift (xs : List Int) (a x : Int) :
    xs.foldl min (min a x) = min a (xs.foldl min x) := by
  induction xs generalizing a x with
  | nil => rfl
  | cons y ys ih =>
    simp only [List.foldl]
    rw [min_assoc, ih]

theorem foldl_max_shift (xs : List Int) (a x : Int) :
    xs.foldl max (max a x) = max a (xs.foldl max x) := by
  induction xs generalizing a x with
  | nil => rfl
  | cons y ys ih =>
    simp only [List.foldl]
    rw [max_assoc, ih]

theorem before_fold (l : List Int) (acc : Nat) :
    l.foldl (fun m o => max m (-o).toNat) acc = max acc (-(l.foldl min 0)).toNat := by
  induction l generalizing acc with
  | nil => simp
  | cons o l ih =>
    simp only [List.foldl]
    rw [ih, min_comm 0 o, foldl_min_shift]
    generalize l.foldl min 0 = m
    omega

theorem after_fold (l : List Int) (acc : Nat) :
    l.foldl (fun m o => max m o.toNat) acc = max acc (l.foldl max 0).toNat := by
  induction l generalizing acc with
  | nil => simp
  | cons o l ih =>
    simp only [List.foldl]
    rw [ih, max_comm 0 o, foldl_max_shift]
    generalize l.foldl max 0 = m
    omega

theorem foldl_min_zero (l : List Int) (h : l ≠ []) :
    l.foldl min 0 = min 0 (list_min l) := by
  cases l with
  | nil => exact absurd rfl h
  | cons x xs =>
    simp only [List.foldl, list_min]
    exact foldl_min_shift xs 0 x

theorem foldl_max_zero (l : List Int) (h : l ≠ []) :
    l.foldl max 0 = max 0 (list_max l) := by
  cases l with
  | nil => exact absurd rfl h
  | cons x xs =>
    simp only [List.foldl, list_max]
    exact foldl_max_shift xs 0 x

theorem boundary_foldl_proj (os : List gtir.CartesianOffset) (b : gtir.FieldBoundary) :
    os.foldl boundary_update b =
      { i := (os.map gtir.CartesianOffset.i).foldl axis_update b.i,
        j := (os.map gtir.CartesianOffset.j).foldl axis_update b.j,
        k := (os.map gtir.CartesianOffset.k).foldl axis_update b.k } := by
  induction os generalizing b with
  | nil => rfl
  | cons o os ih =>
    simp only [List.foldl, List.map]
    rw [ih]
    rfl

theorem axis_foldl_pair (l : List Int) (m : Nat × Nat) :
    l.foldl axis_update m =
      (l.foldl (fun a o => max a (-o).toNat) m.1, l.foldl (fun a o => max a o.toNat) m.2) := by
  induction l generalizing m with
  | nil => rfl
  | cons o l ih =>
    simp only [List.foldl, axis_update]
    rw [ih]

theorem margins_of_boundary_from (os : List gtir.CartesianOffset) (h : os ≠ []) :
    (((boundary_from os).i.1 : Int) = max 0 (-(list_min (os.map gtir.CartesianOffset.i)))) ∧
    (((boundary_from os).i.2 : Int) = max 0 (list_max (os.map gtir.CartesianOffset.i))) ∧
    (((boundary_from os).j.1 : Int) = max 0 (-(list_min (os.map gtir.CartesianOffset.j)))) ∧
    (((boundary_from os).j.2 : Int) = max 0 (list_max (os.map gtir.CartesianOffset.j))) ∧
    (((boundary_from os).k.1 : Int) = max 0 (-(list_min (os.map gtir.CartesianOffset.k)))) ∧
    (((boundary_from os).k.2 : Int) = max 0 (list_max (os.map gtir.CartesianOffset.k))) := by
  have hmap : ∀ f : gtir.CartesianOffset → Int, os.map f ≠ [] := by
    intro f hf
    exact h (List.map_eq_nil_iff.mp hf)
  have key : ∀ l : List Int, l ≠ [] →
      ((((l.foldl (fun a o => max a (-o).toNat) 0 : Nat)) : Int) = max 0 (-(list_min l)) ∧
       (((l.foldl (fun a o => max a o.toNat) 0 : Nat)) : Int) = max 0 (list_max l)) := by
    intro l hl
    constructor
    · rw [before_fold, foldl_min_zero l hl]
      generalize list_min l = m
      omega
    · rw [after_fold, foldl_max_zero l hl]
      generalize list_max l = m
      omega
  unfold boundary_from
  rw [boundary_foldl_proj]
  simp only [zero_boundary, axis_foldl_pair]
  exact ⟨(key _ (hmap _)).1, (key _ (hmap _)).2, (key _ (hmap _)).1, (key _ (hmap _)).2,
    (key _ (hmap _)).1, (key _ (hmap _)).2⟩

/-- The copy-with-shift program of the fields metadata test: a single
assignment writing field a at the center from field b read at the given
offset. -/
def copy_shift (offset : gtir.CartesianOffset) : gtir.Computation :=
  { name := "copy_shift",
    params := [{ name := "a", dtype := "FLOAT64" }, { name := "b", dtype := "FLOAT64" }],
    stencils := [
      { vertical_loops := [
          { loop_order := gtir.LoopOrder.FORWARD,
            vertical_intervals := [
              { interval_start := { level := gtir.LevelMarker.START, offset := 0 },
                interval_end := { level := gtir.LevelMarker.END, offset := 0 },
                horizontal_loops := [
                  { stmt := { left := gtir.FieldAccess.centered ("a"),
                              right := [{ name := "b", offset := offset }] } } ] } ] } ] } ] }

/-- C2: for every gtir computation and declared field with at least one
observed offset, the boundary computed by the fields metadata pass has, on
each axis, margin before equal to max 0 of the negated minimum observed
offset and margin after equal to max 0 of the maximum observed offset; in
particular, for the copy-with-shift program, field a gets all-zero margins,
offset (-1,2,0) gives field b the boundary i=(1,0), j=(0,2), k=(0,0), and
offset (1,2,-3) gives field b the boundary i=(0,1), j=(0,2), k=(3,0). -/
theorem fields_metadata_pass_margins :
    (∀ (c : gtir.Computation) (f : String) (bnd : gtir.FieldBoundary),
        (f, bnd) ∈ fields_metadata_pass c →
        observed_offsets c f ≠ [] →
        (((bnd.i.1 : Int) = max 0 (-(list_min ((observed_offsets c f).map gtir.CartesianOffset.i)))) ∧
         ((bnd.i.2 : Int) = max 0 (list_max ((observed_offsets c f).map gtir.CartesianOffset.i))) ∧
         ((bnd.j.1 : Int) = max 0 (-(list_min ((observed_offsets c f).map gtir.CartesianOffset.j)))) ∧
         ((bnd.j.2 : Int) = max 0 (list_max ((observed_offsets c f).map gtir.CartesianOffset.j))) ∧
         ((bnd.k.1 : Int) = max 0 (-(list_min ((observed_offsets c f).map gtir.CartesianOffset.k)))) ∧
         ((bnd.k.2 : Int) = max 0 (list_max ((observed_offsets c f).map gtir.CartesianOffset.k))))) ∧
    dget (fields_metadata_pass (copy_shift { i := -1, j := 2, k := 0 })) ("a") =
      some zero_boundary ∧
    dget (fields_metadata_pass (copy_shift { i := -1, j := 2, k := 0 })) ("b") =
      some { i := (1, 0), j := (0, 2), k := (0, 0) } ∧
    dget (fields_metadata_pass (copy_shift { i := 1, j := 2, k := -3 })) ("a") =
      some zero_boundary ∧
    dget (fields_metadata_pass (copy_shift { i := 1, j := 2, k := -3 })) ("b") =
      some { i := (0, 1), j := (0, 2), k := (3, 0) } := by
  refine ⟨?_, by decide, by decide, by decide, by decide⟩
  intro c f bnd hmem hne
  simp only [fields_metadata_pass, List.mem_map] at hmem
  obtain ⟨p, _, hp⟩ := hmem
  obtain ⟨hf, hbnd⟩ := Prod.mk.injEq .. ▸ hp
  subst hf
  rw [← hbnd]
  exact margins_of_boundary_from _ hne

/-- Witness for C2: the universal margin property evaluated on the concrete
copy-with-shift program with offset (-1,2,0) at field b. -/
theorem fields_metadata_pass_margins_witness :
    (("b", ({ i := (1, 0), j := (0, 2), k := (0, 0) } : gtir.FieldBoundary)) ∈
        fields_metadata_pass (copy_shift { i := -1, j := 2, k := 0 })) ∧
    observed_offsets (copy_shift { i := -1, j := 2, k := 0 }) ("b") ≠ [] ∧
    ((((1 : Nat) : Int) = max 0 (-(list_min ((observed_offsets (copy_shift { i := -1, j := 2, k := 0 }) ("b")).map gtir.CartesianOffset.i)))) ∧
     (((0 : Nat) : Int) = max 0 (list_max ((observed_offsets (copy_shift { i := -1, j := 2, k := 0 }) ("b")).map gtir.CartesianOffset.i))) ∧
     (((0 : Nat) : Int) = max 0 (-(list_min ((observed_offsets (copy_shift { i := -1, j := 2, k := 0 }) ("b")).map gtir.CartesianOffset.j)))) ∧
     (((2 : Nat) : Int) = max 0 (list_max ((observed_offsets (copy_shift { i := -1, j := 2, k := 0 }) ("b")).map gtir.CartesianOffset.j))) ∧
     (((0 : Nat) : Int) = max 0 (-(list_min ((observed_offsets (copy_shift { i := -1, j := 2, k := 0 }) ("b")).map gtir.CartesianOffset.k)))) ∧
     (((0 : Nat) : Int) = max 0 (list_max ((observed_offsets (copy_shift { i := -1, j := 2, k := 0 }) ("b")).map gtir.CartesianOffset.k)))) :=
  ⟨by decide, by decide,
    fields_metadata_pass_margins.1 (copy_shift { i := -1, j := 2, k := 0 }) ("b")
      { i := (1, 0), j := (0, 2), k := (0, 0) } (by decide) (by decide)⟩

/-! ## The implementation-IR module data builder (module_generator.py) -/

inductive AccessIntent where
  | READ_ONLY
  | READ_WRITE
deriving DecidableEq

inductive AccessKind where
  | READ_ONLY
  | READ_WRITE
deriving DecidableEq

/-- An accessor of an implementation-IR stage: either a field accessor with
an access intent or a parameter accessor (the isinstance split made by
make_args_data_from_iir). -/
inductive Accessor where
  | field_accessor (symbol : String) (intent : AccessIntent)
  | parameter_accessor (symbol : String)
deriving DecidableEq

structure StageNode where
  accessors : List Accessor
deriving DecidableEq

structure StageGroup where
  stages : List StageNode
deriving DecidableEq

structure MultiStage where
  groups : List StageGroup
deriving DecidableEq

structure ApiArg where
  name : String
deriving DecidableEq

abbrev Boundary := (Nat × Nat) × (Nat × Nat) × (Nat × Nat)

/-- A field extent as handed to make_args_data_from_iir; only the boundary it
converts to is observable there. -/
structure Extent where
  to_boundary : Boundary
deriving DecidableEq

structure FieldDeclImpl where
  axes : List String
  dtype : String
deriving DecidableEq

structure ParameterDecl where
  dtype : String
deriving DecidableEq

structure StencilImplementation where
  multi_stages : List MultiStage
  api_signature : List ApiArg
  fields : List (String × FieldDeclImpl)
  fields_extents : List (String × Extent)
  parameters : List (String × ParameterDecl)
  unreferenced : List String
deriving DecidableEq

structure FieldInfo where
  access : AccessKind
  boundary : Boundary
  axes : List String
  dtype : String
deriving DecidableEq

structure ParameterInfo where
  dtype : String
deriving DecidableEq

structure ModuleData where
  field_info : List (String × Option FieldInfo)
  parameter_info : List (String × Option ParameterInfo)
  unreferenced : List String
deriving DecidableEq

def empty_module_data : ModuleData :=
  { field_info := [], parameter_info := [], unreferenced := [] }

/-- The accessors visited by the nested loops of make_args_data_from_iir:
every accessor of every stage of every group of every multi-stage. -/
def all_accessors (iir : StencilImplementation) : List Accessor :=
  ((iir.multi_stages.map (fun ms =>
    ((ms.groups.map (fun sg => ((sg.stages.map StageNode.accessors).flatten))).flatten))).flatten)

/-- The out_fields set of make_args_data_from_iir: symbols of field accessors
whose intent is READ_WRITE. -/
def out_fields (iir : StencilImplementation) : List String :=
  (all_accessors iir).filterMap (fun acc =>
    match acc with
    | Accessor.field_accessor s AccessIntent.READ_WRITE => some s
    | _ => none)

/-- One iteration of the api_signature loop of make_args_data_from_iir;
none models a KeyError on the extents or parameters lookup. -/
def args_data_step (iir : StencilImplementation) (data : ModuleData) (arg : ApiArg) :
    Option ModuleData :=
  match dget iir.fields arg.name with
  | some field_decl =>
    let access := if arg.name ∈ out_fields iir then AccessKind.READ_WRITE else AccessKind.READ_ONLY
    if arg.name ∈ iir.unreferenced then
      some { data with field_info := dset data.field_info arg.name none }
    else
      match dget iir.fields_extents arg.name with
      | some ext =>
        let fi : FieldInfo :=
          { access := access, boundary := ext.to_boundary,
            axes := field_decl.axes, dtype := field_decl.dtype }
        some { data with field_info := dset data.field_info arg.name (some fi) }
      | none => none
  | none =>
    if arg.name ∈ iir.unreferenced then
      some { data with parameter_info := dset data.parameter_info arg.name none }
    else
      match dget iir.parameters arg.name with
      | some p =>
        let pinfo : ParameterInfo := { dtype := p.dtype }
        some { data with parameter_info := dset data.parameter_info arg.name (some pinfo) }
      | none => none

def args_data_loop (iir : StencilImplementation) : List ApiArg → ModuleData → Option ModuleData
  | [], data => some data
  | arg :: rest, data =>
    match args_data_step iir data arg with
    | some d2 => args_data_loop iir rest d2
    | none => none

/-- make_args_data_from_iir: collect out_fields, walk the api signature in
declaration order filling field_info and parameter_info, then record the
unreferenced set. -/
def make_args_data_from_iir (iir : StencilImplementation) : Option ModuleData :=
  (args_data_loop iir iir.api_signature empty_module_data).map
    (fun d => { d with unreferenced := iir.unreferenced })

/-- The access kind recorded for a named field in a ModuleData, if any. -/
def field_access_of (data : ModuleData) (name : String) : Option AccessKind :=
  match dget data.field_info name with
  | some (some fi) => some fi.access
  | _ => none

/-- The field_info rows the signature walk appends, in declaration order. -/
def fi_rows (iir : StencilImplementation) : List ApiArg → Option (List (String × Option FieldInfo))
  | [] => some []
  | a :: rest =>
    match dget iir.fields a.name with
    | none => fi_rows iir rest
    | some fd =>
      if a.name ∈ iir.unreferenced then
        (fi_rows iir rest).map (fun t => (a.name, none) :: t)
      else
        match dget iir.fields_extents a.name with
        | none => none
        | some ext =>
          (fi_rows iir rest).map (fun t =>
            (a.name, some { access := (if a.name ∈ out_fields iir then AccessKind.READ_WRITE
                                       else AccessKind.READ_ONLY),
                            boundary := ext.to_boundary,
                            axes := fd.axes, dtype := fd.dtype }) :: t)

/-- The parameter_info rows the signature walk appends, in declaration
order. -/
def pi_rows (iir : StencilImplementation) : List ApiArg → Option (List (String × Option ParameterInfo))
  | [] => some []
  | a :: rest =>
    match dget iir.fields a.name with
    | some _ => pi_rows iir rest
    | none =>
      if a.name ∈ iir.unreferenced then
        (pi_rows iir rest).map (fun t => (a.name, none) :: t)
      else
        match dget iir.parameters a.name with
        | none => none
        | some p =>
          (pi_rows iir rest).map (fun t => (a.name, some { dtype := p.dtype }) :: t)

theorem dget_eq_none_of_not_mem_keys {α : Type} (d : List (String × α)) (k : String)
    (h : k ∉ dkeys d) : dget d k = none := by
  induction d with
  | nil => rfl
  | cons p rest ih =>
    simp only [dkeys, List.map_cons, List.mem_cons, not_or] at h
    simp only [dget, if_neg (fun e : p.1 = k => h.1 e.symm)]
    exact ih h.2

theorem dget_append_right {α : Type} (d1 d2 : List (String × α)) (k : String)
    (h : dget d1 k = none) : dget (d1 ++ d2) k = dget d2 k := by
  induction d1 with
  | nil => rfl
  | cons p rest ih =>
    simp only [dget] at h ⊢
    by_cases hp : p.1 = k
    · simp [hp] at h
    · simp only [if_neg hp] at h ⊢
      exact ih h

theorem args_data_loop_rows (iir : StencilImplementation) :
    ∀ (args : List ApiArg) (data d : ModuleData),
      args_data_loop iir args data = some d →
      (args.map ApiArg.name).Nodup →
      (∀ k, k ∈ dkeys data.field_info → k ∉ args.map ApiArg.name) →
      (∀ k, k ∈ dkeys data.parameter_info → k ∉ args.map ApiArg.name) →
      ∃ fr pr, fi_rows iir args = some fr ∧ pi_rows iir args = some pr ∧
        d.field_info = data.field_info ++ fr ∧
        d.parameter_info = data.parameter_info ++ pr ∧
        d.unreferenced = data.unreferenced := by
  intro args
  induction args with
  | nil =>
    intro data d h _ _ _
    simp only [args_data_loop, Option.some.injEq] at h
    subst h
    exact ⟨[], [], rfl, rfl, by simp, by simp, rfl⟩
  | cons a rest ih =>
    intro data d h hnd hf hp
    simp only [List.map_cons, List.nodup_cons] at hnd
    cases hstep : args_data_step iir data a with
    | none => rw [args_data_loop, hstep] at h; cases h
    | some d2 =>
      rw [args_data_loop, hstep] at h
      have hfresh_f : a.name ∉ dkeys data.field_info := fun hm => hf a.name hm (by simp)
      have hfresh_p : a.name ∉ dkeys data.parameter_info := fun hm => hp a.name hm (by simp)
      have hnone_f : dget data.field_info a.name = none :=
        dget_eq_none_of_not_mem_keys _ _ hfresh_f
      have hnone_p : dget data.parameter_info a.name = none :=
        dget_eq_none_of_not_mem_keys _ _ hfresh_p
      cases hfd : dget iir.fields a.name with
      | some fd =>
        simp only [args_data_step, hfd] at hstep
        by_cases hu : a.name ∈ iir.unreferenced
        · rw [if_pos hu] at hstep
          have hd2 := (Option.some.inj hstep).symm
          subst hd2
          have hset : dset data.field_info a.name none = data.field_info ++ [(a.name, none)] :=
            dset_of_dget_none _ _ _ hnone_f
          obtain ⟨fr, pr, hfr, hpr, e1, e2, e3⟩ := ih _ d h hnd.2
            (by
              intro k hk
              simp only [hset, dkeys, List.map_append, List.mem_append] at hk
              rcases hk with hk | hk
              · exact fun hr => hf k hk (by simp [hr])
              · simp only [List.map_cons, List.map_nil, List.mem_singleton] at hk
                subst hk
                exact hnd.1)
            (by
              intro k hk
              exact fun hr => hp k hk (by simp [hr]))
          refine ⟨(a.name, none) :: fr, pr, ?_, ?_, ?_, ?_, ?_⟩
          · simp [fi_rows, hfd, hu, hfr]
          · simp [pi_rows, hfd, hpr]
          · rw [e1]
            simp [hset]
          · exact e2
          · exact e3
        · rw [if_neg hu] at hstep
          cases hext : dget iir.fields_extents a.name with
          | none => simp [hext] at hstep
          | some ext =>
            simp only [hext, Option.some.injEq] at hstep
            have hd2 := hstep.symm
            subst hd2
            have hset : ∀ v : Option FieldInfo, dset data.field_info a.name v =
                data.field_info ++ [(a.name, v)] :=
              fun v => dset_of_dget_none _ _ _ hnone_f
            obtain ⟨fr, pr, hfr, hpr, e1, e2, e3⟩ := ih _ d h hnd.2
              (by
                intro k hk
                simp only [hset, dkeys, List.map_append, List.mem_append] at hk
                rcases hk with hk | hk
                · exact fun hr => hf k hk (by simp [hr])
                · simp only [List.map_cons, List.map_nil, List.mem_singleton] at hk
                  subst hk
                  exact hnd.1)
              (by
                intro k hk
                exact fun hr => hp k hk (by simp [hr]))
            refine ⟨(a.name, some { access := (if a.name ∈ out_fields iir then AccessKind.READ_WRITE else AccessKind.READ_ONLY), boundary := ext.to_boundary, axes := fd.axes, dtype := fd.dtype }) :: fr, pr, ?_, ?_, ?_, ?_, ?_⟩
            · simp [fi_rows, hfd, hu, hext, hfr]
            · simp [pi_rows, hfd, hpr]
            · rw [e1]
              simp [hset]
            · exact e2
            · exact e3
      | none =>
        simp only [args_data_step, hfd] at hstep
        by_cases hu : a.name ∈ iir.unreferenced
        · rw [if_pos hu] at hstep
          have hd2 := (Option.some.inj hstep).symm
          subst hd2
          have hset : dset data.parameter_info a.name none =
              data.parameter_info ++ [(a.name, none)] :=
            dset_of_dget_none _ _ _ hnone_p
          obtain ⟨fr, pr, hfr, hpr, e1, e2, e3⟩ := ih _ d h hnd.2
            (by
              intro k hk
              exact fun hr => hf k hk (by simp [hr]))
            (by
              intro k hk
              simp only [hset, dkeys, List.map_append, List.mem_append] at hk
              rcases hk with hk | hk
              · exact fun hr => hp k hk (by simp [hr])
              · simp only [List.map_cons, List.map_nil, List.mem_singleton] at hk
                subst hk
                exact hnd.1)
          refine ⟨fr, (a.name, none) :: pr, ?_, ?_, ?_, ?_, ?_⟩
          · simp [fi_rows, hfd, hfr]
          · simp [pi_rows, hfd, hu, hpr]
          · exact e1
          · rw [e2]
            simp [hset]
          · exact e3
        · rw [if_neg hu] at hstep
          cases hpar : dget iir.parameters a.name with
          | none => simp [hpar] at hstep
          | some p =>
            simp only [hpar, Option.some.injEq] at hstep
            have hd2 := hstep.symm
            subst hd2
            have hset : ∀ v : Option ParameterInfo, dset data.parameter_info a.name v =
                data.parameter_info ++ [(a.name, v)] :=
              fun v => dset_of_dget_none _ _ _ hnone_p
            obtain ⟨fr, pr, hfr, hpr, e1, e2, e3⟩ := ih _ d h hnd.2
              (by
                intro k hk
                exact fun hr => hf k hk (by simp [hr]))
              (by
                intro k hk
                simp only [hset, dkeys, List.map_append, List.mem_append] at hk
                rcases hk with hk | hk
                · exact fun hr => hp k hk (by simp [hr])
                · simp only [List.map_cons, List.map_nil, List.mem_singleton] at hk
                  subst hk
                  exact hnd.1)
            refine ⟨fr, (a.name, some { dtype := p.dtype }) :: pr, ?_, ?_, ?_, ?_, ?_⟩
            · simp [fi_rows, hfd, hfr]
            · simp [pi_rows, hfd, hu, hpar, hpr]
            · exact e1
            · rw [e2]
              simp [hset]
            · exact e3

theorem fi_rows_keys (iir : StencilImplementation) :
    ∀ (args : List ApiArg) (fr : List (String × Option FieldInfo)),
      fi_rows iir args = some fr →
      dkeys fr = (args.filter (fun a => (dget iir.fields a.name).isSome)).map ApiArg.name := by
  intro args
  induction args with
  | nil =>
    intro fr h
    simp only [fi_rows, Option.some.injEq] at h
    subst h
    simp [dkeys]
  | cons a rest ih =>
    intro fr h
    cases hfd : dget iir.fields a.name with
    | none =>
      simp only [fi_rows, hfd] at h
      rw [List.filter_cons_of_neg (by simp [hfd])]
      exact ih fr h
    | some fd =>
      simp only [fi_rows, hfd] at h
      by_cases hu : a.name ∈ iir.unreferenced
      · rw [if_pos hu] at h
        cases hrest : fi_rows iir rest with
        | none => simp [hrest] at h
        | some t =>
          simp only [hrest, Option.map_some', Option.some.injEq] at h
          subst h
          rw [List.filter_cons_of_pos (by simp [hfd])]
          simp only [dkeys, List.map_cons]
          exact congrArg (List.cons a.name) (ih t hrest)
      · rw [if_neg hu] at h
        cases hext : dget iir.fields_extents a.name with
        | none => simp [hext] at h
        | some ext =>
          cases hrest : fi_rows iir rest with
          | none => simp [hext, hrest] at h
          | some t =>
            simp only [hext, hrest, Option.map_some', Option.some.injEq] at h
            subst h
            rw [List.filter_cons_of_pos (by simp [hfd])]
            simp only [dkeys, List.map_cons]
            exact congrArg (List.cons a.name) (ih t hrest)

theorem pi_rows_keys (iir : StencilImplementation) :
    ∀ (args : List ApiArg) (pr : List (String × Option ParameterInfo)),
      pi_rows iir args = some pr →
      dkeys pr = (args.filter (fun a => (dget iir.fields a.name).isNone)).map ApiArg.name := by
  intro args
  induction args with
  | nil =>
    intro pr h
    simp only [pi_rows, Option.some.injEq] at h
    subst h
    simp [dkeys]
  | cons a rest ih =>
    intro pr h
    cases hfd : dget iir.fields a.name with
    | some fd =>
      simp only [pi_rows, hfd] at h
      rw [List.filter_cons_of_neg (by simp [hfd])]
      exact ih pr h
    | none =>
      simp only [pi_rows, hfd] at h
      by_cases hu : a.name ∈ iir.unreferenced
      · rw [if_pos hu] at h
        cases hrest : pi_rows iir rest with
        | none => simp [hrest] at h
        | some t =>
          simp only [hrest, Option.map_some', Option.some.injEq] at h
          subst h
          rw [List.filter_cons_of_pos (by simp [hfd])]
          simp only [dkeys, List.map_cons]
          exact congrArg (List.cons a.name) (ih t hrest)
      · rw [if_neg hu] at h
        cases hpar : dget iir.parameters a.name with
        | none => simp [hpar] at h
        | some p =>
          cases hrest : pi_rows iir rest with
          | none => simp [hpar, hrest] at h
          | some t =>
            simp only [hpar, hrest, Option.map_some', Option.some.injEq] at h
            subst h
            rw [List.filter_cons_of_pos (by simp [hfd])]
            simp only [dkeys, List.map_cons]
            exact congrArg (List.cons a.name) (ih t hrest)

theorem fi_rows_dget (iir : StencilImplementation) :
    ∀ (args : List ApiArg) (fr : List (String × Option FieldInfo)) (a : ApiArg)
      (fd : FieldDeclImpl),
      fi_rows iir args = some fr →
      (args.map ApiArg.name).Nodup →
      a ∈ args →
      dget iir.fields a.name = some fd →
      ((a.name ∈ iir.unreferenced → dget fr a.name = some none) ∧
       (a.name ∉ iir.unreferenced →
         ∃ ext, dget iir.fields_extents a.name = some ext ∧
           dget fr a.name = some (some
             { access := (if a.name ∈ out_fields iir then AccessKind.READ_WRITE
                          else AccessKind.READ_ONLY),
               boundary := ext.to_boundary, axes := fd.axes, dtype := fd.dtype }))) := by
  intro args
  induction args with
  | nil =>
    intro fr a fd _ _ hmem _
    simp at hmem
  | cons b rest ih =>
    intro fr a fd h hnd hmem hfd
    simp only [List.map_cons, List.nodup_cons] at hnd
    rcases List.mem_cons.mp hmem with heq | hmem2
    · subst heq
      simp only [fi_rows, hfd] at h
      by_cases hu : a.name ∈ iir.unreferenced
      · rw [if_pos hu] at h
        cases hrest : fi_rows iir rest with
        | none => simp [hrest] at h
        | some t =>
          simp only [hrest, Option.map_some', Option.some.injEq] at h
          subst h
          refine ⟨fun _ => by simp [dget], fun hu2 => absurd hu hu2⟩
      · rw [if_neg hu] at h
        cases hext : dget iir.fields_extents a.name with
        | none => simp [hext] at h
        | some ext =>
          cases hrest : fi_rows iir rest with
          | none => simp [hext, hrest] at h
          | some t =>
            simp only [hext, hrest, Option.map_some', Option.some.injEq] at h
            subst h
            exact ⟨fun hu2 => absurd hu2 hu, fun _ => ⟨ext, rfl, by simp [dget]⟩⟩
    · have hanem : a.name ∈ rest.map ApiArg.name := List.mem_map_of_mem _ hmem2
      have hbne : b.name ≠ a.name := fun e => hnd.1 (e ▸ hanem)
      cases hbfd : dget iir.fields b.name with
      | none =>
        simp only [fi_rows, hbfd] at h
        exact ih fr a fd h hnd.2 hmem2 hfd
      | some bfd =>
        simp only [fi_rows, hbfd] at h
        by_cases hu : b.name ∈ iir.unreferenced
        · rw [if_pos hu] at h
          cases hrest : fi_rows iir rest with
          | none => simp [hrest] at h
          | some t =>
            simp only [hrest, Option.map_some', Option.some.injEq] at h
            subst h
            have hrec := ih t a fd hrest hnd.2 hmem2 hfd
            refine ⟨fun hu2 => ?_, fun hu2 => ?_⟩
            · simp only [dget, if_neg hbne]
              exact hrec.1 hu2
            · obtain ⟨ext, h1, h2⟩ := hrec.2 hu2
              exact ⟨ext, h1, by simp only [dget, if_neg hbne]; exact h2⟩
        · rw [if_neg hu] at h
          cases hext : dget iir.fields_extents b.name with
          | none => simp [hext] at h
          | some ext =>
            cases hrest : fi_rows iir rest with
            | none => simp [hext, hrest] at h
            | some t =>
              simp only [hext, hrest, Option.map_some', Option.some.injEq] at h
              subst h
              have hrec := ih t a fd hrest hnd.2 hmem2 hfd
              refine ⟨fun hu2 => ?_, fun hu2 => ?_⟩
              · simp only [dget, if_neg hbne]
                exact hrec.1 hu2
              · obtain ⟨ext2, h1, h2⟩ := hrec.2 hu2
                exact ⟨ext2, h1, by simp only [dget, if_neg hbne]; exact h2⟩

theorem pi_rows_dget (iir : StencilImplementation) :
    ∀ (args : List ApiArg) (pr : List (String × Option ParameterInfo)) (a : ApiArg),
      pi_rows iir args = some pr →
      (args.map ApiArg.name).Nodup →
      a ∈ args →
      dget iir.fields a.name = none →
      ((a.name ∈ iir.unreferenced → dget pr a.name = some none) ∧
       (a.name ∉ iir.unreferenced →
         ∃ p, dget iir.parameters a.name = some p ∧
           dget pr a.name = some (some { dtype := p.dtype }))) := by
  intro args
  induction args with
  | nil =>
    intro pr a _ _ hmem _
    simp at hmem
  | cons b rest ih =>
    intro pr a h hnd hmem hfd
    simp only [List.map_cons, List.nodup_cons] at hnd
    rcases List.mem_cons.mp hmem with heq | hmem2
    · subst heq
      simp only [pi_rows, hfd] at h
      by_cases hu : a.name ∈ iir.unreferenced
      · rw [if_pos hu] at h
        cases hrest : pi_rows iir rest with
        | none => simp [hrest] at h
        | some t =>
          simp only [hrest, Option.map_some', Option.some.injEq] at h
          subst h
          refine ⟨fun _ => by simp [dget], fun hu2 => absurd hu hu2⟩
      · rw [if_neg hu] at h
        cases hpar : dget iir.parameters a.name with
        | none => simp [hpar] at h
        | some p =>
          cases hrest : pi_rows iir rest with
          | none => simp [hpar, hrest] at h
          | some t =>
            simp only [hpar, hrest, Option.map_some', Option.some.injEq] at h
            subst h
            exact ⟨fun hu2 => absurd hu2 hu, fun _ => ⟨p, rfl, by simp [dget]⟩⟩
    · have hanem : a.name ∈ rest.map ApiArg.name := List.mem_map_of_mem _ hmem2
      have hbne : b.name ≠ a.name := fun e => hnd.1 (e ▸ hanem)
      cases hbfd : dget iir.fields b.name with
      | some bfd =>
        simp only [pi_rows, hbfd] at h
        exact ih pr a h hnd.2 hmem2 hfd
      | none =>
        simp only [pi_rows, hbfd] at h
        by_cases hu : b.name ∈ iir.unreferenced
        · rw [if_pos hu] at h
          cases hrest : pi_rows iir rest with
          | none => simp [hrest] at h
          | some t =>
            simp only [hrest, Option.map_some', Option.some.injEq] at h
            subst h
            have hrec := ih t a hrest hnd.2 hmem2 hfd
            refine ⟨fun hu2 => ?_, fun hu2 => ?_⟩
            · simp only [dget, if_neg hbne]
              exact hrec.1 hu2
            · obtain ⟨p, h1, h2⟩ := hrec.2 hu2
              exact ⟨p, h1, by simp only [dget, if_neg hbne]; exact h2⟩
        · rw [if_neg hu] at h
          cases hpar : dget iir.parameters b.name with
          | none => simp [hpar] at h
          | some p =>
            cases hrest : pi_rows iir rest with
            | none => simp [hpar, hrest] at h
            | some t =>
              simp only [hpar, hrest, Option.map_some', Option.some.injEq] at h
              subst h
              have hrec := ih t a hrest hnd.2 hmem2 hfd
              refine ⟨fun hu2 => ?_, fun hu2 => ?_⟩
              · simp only [dget, if_neg hbne]
                exact hrec.1 hu2
              · obtain ⟨p2, h1, h2⟩ := hrec.2 hu2
                exact ⟨p2, h1, by simp only [dget, if_neg hbne]; exact h2⟩

theorem mem_out_fields (iir : StencilImplementation) (s : String) :
    s ∈ out_fields iir ↔
      Accessor.field_accessor s AccessIntent.READ_WRITE ∈ all_accessors iir := by
  simp only [out_fields, List.mem_filterMap]
  constructor
  · rintro ⟨acc, hmem, heq⟩
    cases acc with
    | field_accessor sym intent =>
      cases intent with
      | READ_ONLY => simp at heq
      | READ_WRITE =>
        simp only [Option.some.injEq] at heq
        subst heq
        exact hmem
    | parameter_accessor sym => simp at heq
  · intro hm
    exact ⟨_, hm, rfl⟩

/-- C3: for every implementation IR whose signature walk succeeds, a declared
field argument that is referenced gets a recorded FieldInfo whose access kind
is READ_WRITE exactly when a READ_WRITE-intent field accessor for it exists
anywhere in the program, and READ_ONLY otherwise, regardless of reads. -/
theorem make_args_data_access_kind :
    ∀ (iir : StencilImplementation) (data : ModuleData) (arg : ApiArg),
      make_args_data_from_iir iir = some data →
      (iir.api_signature.map ApiArg.name).Nodup →
      arg ∈ iir.api_signature →
      (dget iir.fields arg.name).isSome →
      arg.name ∉ iir.unreferenced →
      field_access_of data arg.name =
        some (if Accessor.field_accessor arg.name AccessIntent.READ_WRITE ∈ all_accessors iir
              then AccessKind.READ_WRITE else AccessKind.READ_ONLY) := by
  intro iir data arg hmk hnd hmem hfs hun
  obtain ⟨fd, hfd⟩ := Option.isSome_iff_exists.mp hfs
  cases hloop : args_data_loop iir iir.api_signature empty_module_data with
  | none => rw [make_args_data_from_iir, hloop] at hmk; cases hmk
  | some d0 =>
    have hdata : data = { d0 with unreferenced := iir.unreferenced } := by
      rw [make_args_data_from_iir, hloop] at hmk
      simpa using hmk.symm
    obtain ⟨fr, pr, hfr, hpr, e1, e2, e3⟩ :=
      args_data_loop_rows iir iir.api_signature empty_module_data d0 hloop hnd
        (by simp [empty_module_data, dkeys]) (by simp [empty_module_data, dkeys])
    have hfi : data.field_info = fr := by
      rw [hdata]
      simpa [empty_module_data] using e1
    have hrow := fi_rows_dget iir iir.api_signature fr arg fd hfr hnd hmem hfd
    obtain ⟨ext, hext, hget⟩ := hrow.2 hun
    rw [field_access_of, hfi, hget]
    by_cases hw : Accessor.field_accessor arg.name AccessIntent.READ_WRITE ∈ all_accessors iir
    · simp [hw, (mem_out_fields iir arg.name).mpr hw]
    · have hno : arg.name ∉ out_fields iir := fun hm => hw ((mem_out_fields iir arg.name).mp hm)
      simp [hw, hno]

/-- The concrete implementation IR used to witness C3 and C4: field f is
written, field g only read, parameter p referenced, argument q declared but
unreferenced. -/
def iir0 : StencilImplementation :=
  { multi_stages := [{ groups := [{ stages := [{ accessors :=
        [Accessor.field_accessor ("f") AccessIntent.READ_WRITE,
         Accessor.field_accessor ("g") AccessIntent.READ_ONLY,
         Accessor.parameter_accessor ("p")] }] }] }],
    api_signature := [{ name := "f" }, { name := "g" }, { name := "p" }, { name := "q" }],
    fields := [("f", { axes := ["I", "J", "K"], dtype := "float64" }),
               ("g", { axes := ["I", "J", "K"], dtype := "float64" })],
    fields_extents := [("f", { to_boundary := ((0, 0), (0, 0), (0, 0)) }),
                       ("g", { to_boundary := ((1, 1), (0, 0), (0, 0)) })],
    parameters := [("p", { dtype := "int32" })],
    unreferenced := ["q"] }

def args_data0 : ModuleData :=
  (make_args_data_from_iir iir0).getD empty_module_data

/-- Witness for C3: the access-kind property evaluated on the concrete
implementation IR at the written field f. -/
theorem make_args_data_access_kind_witness :
    make_args_data_from_iir iir0 = some args_data0 ∧
    (iir0.api_signature.map ApiArg.name).Nodup ∧
    ({ name := "f" } : ApiArg) ∈ iir0.api_signature ∧
    (dget iir0.fields ("f")).isSome ∧
    ("f" : String) ∉ iir0.unreferenced ∧
    field_access_of args_data0 ("f") =
      some (if Accessor.field_accessor ("f") AccessIntent.READ_WRITE ∈ all_accessors iir0
            then AccessKind.READ_WRITE else AccessKind.READ_ONLY) :=
  ⟨by decide, by decide, by decide, by decide, by decide,
    make_args_data_access_kind iir0 args_data0 { name := "f" } (by decide) (by decide)
      (by decide) (by decide) (by decide)⟩

/-- C4: for every implementation IR whose signature walk succeeds, field_info
holds exactly the field arguments and parameter_info exactly the non-field
arguments, each in api_signature declaration order, and every unreferenced
argument is recorded with an explicit none entry rather than omitted. -/
theorem make_args_data_signature_order :
    ∀ (iir : StencilImplementation) (data : ModuleData),
      make_args_data_from_iir iir = some data →
      (iir.api_signature.map ApiArg.name).Nodup →
      (dkeys data.field_info =
         (iir.api_signature.filter (fun a => (dget iir.fields a.name).isSome)).map ApiArg.name ∧
       dkeys data.parameter_info =
         (iir.api_signature.filter (fun a => (dget iir.fields a.name).isNone)).map ApiArg.name ∧
       (∀ a, a ∈ iir.api_signature → a.name ∈ iir.unreferenced →
         ((dget iir.fields a.name).isSome → dget data.field_info a.name = some none) ∧
         (dget iir.fields a.name = none → dget data.parameter_info a.name = some none))) := by
  intro iir data hmk hnd
  cases hloop : args_data_loop iir iir.api_signature empty_module_data with
  | none => rw [make_args_data_from_iir, hloop] at hmk; cases hmk
  | some d0 =>
    have hdata : data = { d0 with unreferenced := iir.unreferenced } := by
      rw [make_args_data_from_iir, hloop] at hmk
      simpa using hmk.symm
    obtain ⟨fr, pr, hfr, hpr, e1, e2, e3⟩ :=
      args_data_loop_rows iir iir.api_signature empty_module_data d0 hloop hnd
        (by simp [empty_module_data, dkeys]) (by simp [empty_module_data, dkeys])
    have hfi : data.field_info = fr := by
      rw [hdata]
      simpa [empty_module_data] using e1
    have hpi : data.parameter_info = pr := by
      rw [hdata]
      simpa [empty_module_data] using e2
    refine ⟨?_, ?_, ?_⟩
    · rw [hfi]
      exact fi_rows_keys iir iir.api_signature fr hfr
    · rw [hpi]
      exact pi_rows_keys iir iir.api_signature pr hpr
    · intro a hmem hu
      constructor
      · intro hsome
        obtain ⟨fd, hfd⟩ := Option.isSome_iff_exists.mp hsome
        rw [hfi]
        exact (fi_rows_dget iir iir.api_signature fr a fd hfr hnd hmem hfd).1 hu
      · intro hnonef
        rw [hpi]
        exact (pi_rows_dget iir iir.api_signature pr a hpr hnd hmem hnonef).1 hu

/-- Witness for C4: the declaration-order and absent-marker property
evaluated on the concrete implementation IR, including the unreferenced
argument q recorded as an explicit none entry. -/
theorem make_args_data_signature_order_witness :
    make_args_data_from_iir iir0 = some args_data0 ∧
    (iir0.api_signature.map ApiArg.name).Nodup ∧
    dkeys args_data0.field_info =
      (iir0.api_signature.filter (fun a => (dget iir0.fields a.name).isSome)).map ApiArg.name ∧
    dkeys args_data0.parameter_info =
      (iir0.api_signature.filter (fun a => (dget iir0.fields a.name).isNone)).map ApiArg.name ∧
    dget args_data0.parameter_info ("q") = some none :=
  ⟨by decide, by decide,
    (make_args_data_signature_order iir0 args_data0 (by decide) (by decide)).1,
    (make_args_data_signature_order iir0 args_data0 (by decide) (by decide)).2.1,
    ((make_args_data_signature_order iir0 args_data0 (by decide) (by decide)).2.2
      { name := "q" } (by decide) (by decide)).2 (by decide)⟩

/-! ## C9: the module generator builder guard -/

abbrev StencilBuilder := Nat

/-- The state set up by the BaseModuleGenerator constructor: the optional
builder reference and an empty args_data record. -/
structure BaseModuleGenerator where
  _builder : Option StencilBuilder
  args_data : ModuleData
deriving DecidableEq

def base_module_generator_init (builder : Option StencilBuilder) : BaseModuleGenerator :=
  { _builder := builder, args_data := empty_module_data }

/-- The builder property of BaseModuleGenerator: raises a RuntimeError when
the builder reference was never initialized, otherwise returns it. -/
def builder_property (g : BaseModuleGenerator) : Except String StencilBuilder :=
  match g._builder with
  | none => Except.error ("Builder attribute not initialized!")
  | some b => Except.ok b

/-- C9: a BaseModuleGenerator constructed without a builder and not
subsequently given one raises a RuntimeError from its builder property
instead of returning a degenerate value. -/
theorem builder_property_fails_uninitialized :
    ∀ builder_arg : Option StencilBuilder, builder_arg = none →
      builder_property (base_module_generator_init builder_arg) =
        Except.error ("Builder attribute not initialized!") := by
  intro b hb
  subst hb
  rfl

/-- Witness for C9: the guard evaluated at the default constructor call. -/
theorem builder_property_fails_uninitialized_witness :
    builder_property (base_module_generator_init none) =
      Except.error ("Builder attribute not initialized!") :=
  builder_property_fails_uninitialized none rfl

/-! ## The build pipeline (build.py)

Context values the pipeline never inspects are embedded as opaque handles;
the frontend and backend collaborators are deterministic functions bundled in
an environment record.  Each stage make either returns the updated context or
an error naming the missing key or failed validation, modelling the raised
exception. -/

inductive PyVal where
  | str (s : String)
  | dict (entries : List (String × PyVal))

abbrev Externals := List (String × String)

abbrev BuildInfo := List (String × String)

abbrev BuildOptions := Nat

abbrev IRData := Nat

abbrev IIRData := Nat

abbrev StencilID := Nat

/-- The slots of a stencil definition object the build context reads: the
value of getattr for the dunder module attribute (with empty-string default)
and the dunder name attribute. -/
structure Definition where
  module : String
  name : String
deriving DecidableEq

/-- The build context: one optional slot per context key the pipeline uses.
A none slot is an absent dict key; reading it raises KeyError. -/
structure Ctx where
  definition : Definition
  module : Option String := none
  name : Option String := none
  externals : Option Externals := none
  qualified_name : Option String := none
  build_info : Option BuildInfo := none
  options : Option BuildOptions := none
  frontend : Option Unit := none
  backend : Option Unit := none
  bindings : Option (List String) := none
  options_id : Option String := none
  id : Option StencilID := none
  ir : Option IRData := none
  iir : Option IIRData := none
  src : Option (List (String × PyVal)) := none
  bindings_src : Option (List (String × PyVal)) := none
  generator_options : Option (List (String × String)) := none
  pyext_module_name : Option String := none
  pyext_file_path : Option String := none

/-- The deterministic collaborator functions of the frontend and backend plus
the backend capability flags. -/
structure Env where
  bindings_languages : List String
  src_extension : String
  cpu_architecture : String
  get_options_id : BuildOptions → String
  check_options : BuildOptions → Bool
  get_stencil_id : String → Definition → Externals → String → StencilID
  frontend_generate : Definition → Externals → BuildOptions → IRData
  analysis_transform : IRData → BuildOptions → IIRData
  as_dict : BuildOptions → List (String × String)
  get_pyext_class_name : StencilID → String
  get_pyext_module_name : StencilID → String
  pyext_generate : String → String → String → BuildOptions → IIRData → List (String × PyVal)
  generator_generate : List (String × String) → StencilID → IIRData → String
  make_build_options : String → String → BuildInfo → BuildOptions

/-- The keyword arguments accepted by the BuildContext constructor; a none
entry models an argument that was omitted or passed as None (both are
filtered out before the defaults run). -/
structure CtxKwargs where
  module : Option String := none
  name : Option String := none
  externals : Option Externals := none
  qualified_name : Option String := none
  build_info : Option BuildInfo := none
  options : Option BuildOptions := none
  frontend : Option Unit := none
  backend : Option Unit := none
  bindings : Option (List String) := none
  pyext_module_name : Option String := none
  pyext_file_path : Option String := none

/-- The BuildContext constructor: keep the non-None keyword arguments, store
the definition, then fill module, name, externals, qualified_name,
build_info and options only where not already present (set_no_replace). -/
def build_context_init (env : Env) (definition : Definition) (kw : CtxKwargs) : Ctx :=
  let c : Ctx :=
    { definition := definition, module := kw.module, name := kw.name,
      externals := kw.externals, qualified_name := kw.qualified_name,
      build_info := kw.build_info, options := kw.options,
      frontend := kw.frontend, backend := kw.backend, bindings := kw.bindings,
      pyext_module_name := kw.pyext_module_name, pyext_file_path := kw.pyext_file_path }
  let c := { c with module := some (c.module.getD definition.module) }
  let c := { c with name := some (c.name.getD definition.name) }
  let c := { c with externals := some (c.externals.getD []) }
  let qn_default := (c.module.getD "") ++ "." ++ (c.name.getD "")
  let c := { c with qualified_name := some (c.qualified_name.getD qn_default) }
  let c := { c with build_info := some (c.build_info.getD []) }
  let opts_default := env.make_build_options (c.name.getD "") (c.module.getD "") (c.build_info.getD [])
  { c with options := some (c.options.getD opts_default) }

def begin_stage_make (c : Ctx) : Except String Ctx :=
  Except.ok c

def ir_stage_make (env : Env) (c : Ctx) : Except String Ctx :=
  match c.frontend with
  | none => Except.error ("KeyError: frontend")
  | some _ =>
  match c.backend with
  | none => Except.error ("KeyError: backend")
  | some _ =>
  match c.options with
  | none => Except.error ("KeyError: options")
  | some opts =>
  let opts_id := env.get_options_id opts
  match c.qualified_name with
  | none => Except.error ("KeyError: qualified_name")
  | some qn =>
  match c.externals with
  | none => Except.error ("KeyError: externals")
  | some exts =>
  Except.ok { c with options_id := some opts_id,
                     id := some (env.get_stencil_id qn c.definition exts opts_id),
                     ir := some (env.frontend_generate c.definition exts opts) }

def iir_stage_make (env : Env) (c : Ctx) : Except String Ctx :=
  match c.backend with
  | none => Except.error ("KeyError: backend")
  | some _ =>
  match c.options with
  | none => Except.error ("KeyError: options")
  | some opts =>
  if env.check_options opts then
    match c.ir with
    | none => Except.error ("KeyError: ir")
    | some ir =>
    Except.ok { c with iir := some (env.analysis_transform ir opts) }
  else Except.error ("Option validation failed")

def source_make_py_module (env : Env) (c : Ctx) : Except String Ctx :=
  match c.options with
  | none => Except.error ("KeyError: options")
  | some opts =>
  let generator_options := env.as_dict opts
  match c.name with
  | none => Except.error ("KeyError: name")
  | some name =>
  match c.id with
  | none => Except.error ("KeyError: id")
  | some id =>
  match c.iir with
  | none => Except.error ("KeyError: iir")
  | some iir =>
  Except.ok { c with generator_options := some generator_options,
                     src := some [(name ++ ".py",
                       PyVal.str (env.generator_generate generator_options id iir))] }

def source_make_lang_src (env : Env) (c : Ctx) : Except String Ctx :=
  match c.id with
  | none => Except.error ("KeyError: id")
  | some id =>
  match c.options with
  | none => Except.error ("KeyError: options")
  | some opts =>
  match c.iir with
  | none => Except.error ("KeyError: iir")
  | some iir =>
  let src0 := env.pyext_generate (env.get_pyext_class_name id) (env.get_pyext_module_name id)
    env.cpu_architecture opts iir
  let src1 :=
    match dget src0 ("computation.src") with
    | some v => dset (dpop src0 ("computation.src")) ("computation." ++ env.src_extension) v
    | none => src0
  match dget src1 ("bindings.cpp") with
  | some v =>
    Except.ok { c with src := some (dpop src1 ("bindings.cpp")),
                       bindings_src := some (dset (c.bindings_src.getD []) ("bindings.cpp") v) }
  | none => Except.ok { c with src := some src1 }

def source_stage_make (env : Env) (c : Ctx) : Except String Ctx :=
  match c.backend with
  | none => Except.error ("KeyError: backend")
  | some _ =>
  if env.bindings_languages.isEmpty then source_make_py_module env c
  else source_make_lang_src env c

def bindings_stage_make (env : Env) (c : Ctx) : Except String Ctx :=
  match c.bindings with
  | none => Except.error ("KeyError: bindings")
  | some bindings =>
  if "python" ∈ bindings then
    match c.backend with
    | none => Except.error ("KeyError: backend")
    | some _ =>
    match c.options with
    | none => Except.error ("KeyError: options")
    | some opts =>
    match c.name with
    | none => Except.error ("KeyError: name")
    | some name =>
    let gen_opts := dset (env.as_dict opts) ("pyext_module_name")
      (c.pyext_module_name.getD ("_" ++ name))
    match c.pyext_file_path with
    | none => Except.error ("KeyError: pyext_file_path")
    | some pfp =>
    let gen_opts := dset gen_opts ("pyext_file_path") pfp
    match c.id with
    | none => Except.error ("KeyError: id")
    | some id =>
    match c.iir with
    | none => Except.error ("KeyError: iir")
    | some iir =>
    let old_cpp := (dget (c.bindings_src.getD []) ("bindings.cpp")).getD (PyVal.str "")
    Except.ok { c with generator_options := some gen_opts,
                       bindings_src := some [("python", PyVal.dict
                         [("bindings.cpp", old_cpp),
                          (name ++ ".py", PyVal.str (env.generator_generate gen_opts id iir))])] }
  else Except.ok c

inductive StageK where
  | begin
  | ir
  | iir
  | source
  | bindings
deriving DecidableEq

def stage_make (env : Env) : StageK → Ctx → Except String Ctx
  | StageK.begin, c => begin_stage_make c
  | StageK.ir, c => ir_stage_make env c
  | StageK.iir, c => iir_stage_make env c
  | StageK.source, c => source_stage_make env c
  | StageK.bindings, c => bindings_stage_make env c

/-- Truthiness of the bindings context entry as tested by ctx.get in
SourceStage.is_final: absent or empty is falsy. -/
def bindings_truthy : Option (List String) → Bool
  | none => false
  | some l => !l.isEmpty

/-- The is_final test of each stage; reading the backend key of the context
can raise KeyError in the Source case. -/
def stage_is_final (env : Env) : StageK → Ctx → Except String Bool
  | StageK.begin, _ => Except.ok false
  | StageK.ir, _ => Except.ok false
  | StageK.iir, _ => Except.ok false
  | StageK.source, c =>
    match c.backend with
    | none => Except.error ("KeyError: backend")
    | some _ => Except.ok (!((!env.bindings_languages.isEmpty) && bindings_truthy c.bindings))
  | StageK.bindings, _ => Except.ok true

def next_stage : StageK → Option StageK
  | StageK.begin => some StageK.ir
  | StageK.ir => some StageK.iir
  | StageK.iir => some StageK.source
  | StageK.source => some StageK.bindings
  | StageK.bindings => none

/-- make_next: none when the current stage is final, otherwise the next
stage constructed on the context with its make run. -/
def make_next (env : Env) (s : StageK) (c : Ctx) : Except String (Option (StageK × Ctx)) :=
  match stage_is_final env s c with
  | Except.error e => Except.error e
  | Except.ok true => Except.ok none
  | Except.ok false =>
    match next_stage s with
    | none => Except.error ("TypeError: NoneType is not callable")
    | some s2 =>
      match stage_make env s2 c with
      | Except.error e => Except.error e
      | Except.ok c2 => Except.ok (some (s2, c2))

/-- Repeatedly call make_next from a stage, recording the visited stages,
until a final stage is reached or an error aborts the build. -/
def run_pipeline (env : Env) : Nat → StageK → Ctx → Except String (List StageK × Ctx)
  | 0, _, _ => Except.error ("fuel exhausted")
  | Nat.succ n, s, c =>
    match make_next env s c with
    | Except.error e => Except.error e
    | Except.ok none => Except.ok ([s], c)
    | Except.ok (some (s2, c2)) =>
      match run_pipeline env n s2 c2 with
      | Except.error e => Except.error e
      | Except.ok (tr, c3) => Except.ok (s :: tr, c3)

theorem stage_make_error_ne_fuel :
    ∀ (env : Env) (s : StageK) (c : Ctx) (e : String),
      stage_make env s c = Except.error e → e ≠ "fuel exhausted" := by
  intro env s c e h hfe
  subst hfe
  cases s <;>
    simp only [stage_make, begin_stage_make, ir_stage_make, iir_stage_make,
      source_stage_make, source_make_py_module, source_make_lang_src,
      bindings_stage_make] at h
  all_goals repeat' split at h
  all_goals simp_all

theorem run_pipeline_step (env : Env) (n : Nat) (s : StageK) (c : Ctx) :
    run_pipeline env (n + 1) s c =
      (match make_next env s c with
       | Except.error e => Except.error e
       | Except.ok none => Except.ok ([s], c)
       | Except.ok (some (s2, c2)) =>
         match run_pipeline env n s2 c2 with
         | Except.error e => Except.error e
         | Except.ok (tr, c3) => Except.ok (s :: tr, c3)) := rfl

/-- C5: from the Begin stage, repeatedly calling make_next reaches a stage
whose is_final holds (after which make_next returns none) within at most 4
transitions, visiting no stage twice; with fuel for 4 transitions the driver
never runs out, so any abort is a build error, not the bound. -/
theorem pipeline_reaches_final_within_four :
    ∀ (env : Env) (c : Ctx),
      (∀ e, run_pipeline env 5 StageK.begin c = Except.error e → e ≠ "fuel exhausted") ∧
      (∀ tr c2, run_pipeline env 5 StageK.begin c = Except.ok (tr, c2) →
        tr.Nodup ∧ tr.length ≤ 5 ∧ tr.head? = some StageK.begin ∧
        stage_is_final env (tr.getLastD StageK.begin) c2 = Except.ok true ∧
        make_next env (tr.getLastD StageK.begin) c2 = Except.ok none) := by
  intro env c
  cases hir : ir_stage_make env c with
  | error e1 =>
    have hrun : run_pipeline env 5 StageK.begin c = Except.error e1 := by
      rw [show (5 : Nat) = 4 + 1 from rfl, run_pipeline_step]
      simp only [make_next, stage_is_final, next_stage, stage_make, hir]
    refine ⟨fun e he => ?_, fun tr c2 habs => ?_⟩
    · rw [hrun] at he
      cases he
      exact stage_make_error_ne_fuel env StageK.ir c e1 hir
    · rw [hrun] at habs
      cases habs
  | ok c1 =>
  cases hiir : iir_stage_make env c1 with
  | error e2 =>
    have hrun : run_pipeline env 5 StageK.begin c = Except.error e2 := by
      rw [show (5 : Nat) = 4 + 1 from rfl, run_pipeline_step]
      simp only [make_next, stage_is_final, next_stage, stage_make, hir]
      rw [show (4 : Nat) = 3 + 1 from rfl, run_pipeline_step]
      simp only [make_next, stage_is_final, next_stage, stage_make, hiir]
    refine ⟨fun e he => ?_, fun tr c2 habs => ?_⟩
    · rw [hrun] at he
      cases he
      exact stage_make_error_ne_fuel env StageK.iir c1 e2 hiir
    · rw [hrun] at habs
      cases habs
  | ok c2 =>
  cases hsrc : source_stage_make env c2 with
  | error e3 =>
    have hrun : run_pipeline env 5 StageK.begin c = Except.error e3 := by
      rw [show (5 : Nat) = 4 + 1 from rfl, run_pipeline_step]
      simp only [make_next, stage_is_final, next_stage, stage_make, hir]
      rw [show (4 : Nat) = 3 + 1 from rfl, run_pipeline_step]
      simp only [make_next, stage_is_final, next_stage, stage_make, hiir]
      rw [show (3 : Nat) = 2 + 1 from rfl, run_pipeline_step]
      simp only [make_next, stage_is_final, next_stage, stage_make, hsrc]
    refine ⟨fun e he => ?_, fun tr c2x habs => ?_⟩
    · rw [hrun] at he
      cases he
      exact stage_make_error_ne_fuel env StageK.source c2 e3 hsrc
    · rw [hrun] at habs
      cases habs
  | ok c3 =>
  cases hb3 : c3.backend with
  | none =>
    have hrun : run_pipeline env 5 StageK.begin c = Except.error ("KeyError: backend") := by
      rw [show (5 : Nat) = 4 + 1 from rfl, run_pipeline_step]
      simp only [make_next, stage_is_final, next_stage, stage_make, hir]
      rw [show (4 : Nat) = 3 + 1 from rfl, run_pipeline_step]
      simp only [make_next, stage_is_final, next_stage, stage_make, hiir]
      rw [show (3 : Nat) = 2 + 1 from rfl, run_pipeline_step]
      simp only [make_next, stage_is_final, next_stage, stage_make, hsrc]
      rw [show (2 : Nat) = 1 + 1 from rfl, run_pipeline_step]
      simp only [make_next, stage_is_final, hb3]
    refine ⟨fun e he => ?_, fun tr c2x habs => ?_⟩
    · rw [hrun] at he
      cases he
      decide
    · rw [hrun] at habs
      cases habs
  | some u =>
  cases hfin : (!((!env.bindings_languages.isEmpty) && bindings_truthy c3.bindings)) with
  | true =>
    have hrun : run_pipeline env 5 StageK.begin c =
        Except.ok ([StageK.begin, StageK.ir, StageK.iir, StageK.source], c3) := by
      rw [show (5 : Nat) = 4 + 1 from rfl, run_pipeline_step]
      simp only [make_next, stage_is_final, next_stage, stage_make, hir]
      rw [show (4 : Nat) = 3 + 1 from rfl, run_pipeline_step]
      simp only [make_next, stage_is_final, next_stage, stage_make, hiir]
      rw [show (3 : Nat) = 2 + 1 from rfl, run_pipeline_step]
      simp only [make_next, stage_is_final, next_stage, stage_make, hsrc]
      rw [show (2 : Nat) = 1 + 1 from rfl, run_pipeline_step]
      simp only [make_next, stage_is_final, hb3, hfin]
    refine ⟨fun e he => ?_, fun tr c2x hok => ?_⟩
    · rw [hrun] at he
      cases he
    · rw [hrun] at hok
      cases hok
      refine ⟨by decide, by decide, rfl, ?_, ?_⟩
      · show stage_is_final env StageK.source c3 = Except.ok true
        simp only [stage_is_final, hb3, hfin]
      · show make_next env StageK.source c3 = Except.ok none
        simp only [make_next, stage_is_final, hb3, hfin]
  | false =>
    cases hbind : bindings_stage_make env c3 with
    | error e4 =>
      have hrun : run_pipeline env 5 StageK.begin c = Except.error e4 := by
        rw [show (5 : Nat) = 4 + 1 from rfl, run_pipeline_step]
        simp only [make_next, stage_is_final, next_stage, stage_make, hir]
        rw [show (4 : Nat) = 3 + 1 from rfl, run_pipeline_step]
        simp only [make_next, stage_is_final, next_stage, stage_make, hiir]
        rw [show (3 : Nat) = 2 + 1 from rfl, run_pipeline_step]
        simp only [make_next, stage_is_final, next_stage, stage_make, hsrc]
        rw [show (2 : Nat) = 1 + 1 from rfl, run_pipeline_step]
        simp only [make_next, stage_is_final, next_stage, stage_make, hb3, hfin, hbind]
      refine ⟨fun e he => ?_, fun tr c2x habs => ?_⟩
      · rw [hrun] at he
        cases he
        exact stage_make_error_ne_fuel env StageK.bindings c3 e4 hbind
      · rw [hrun] at habs
        cases habs
    | ok c4 =>
      have hrun : run_pipeline env 5 StageK.begin c =
          Except.ok ([StageK.begin, StageK.ir, StageK.iir, StageK.source, StageK.bindings], c4) := by
        rw [show (5 : Nat) = 4 + 1 from rfl, run_pipeline_step]
        simp only [make_next, stage_is_final, next_stage, stage_make, hir]
        rw [show (4 : Nat) = 3 + 1 from rfl, run_pipeline_step]
        simp only [make_next, stage_is_final, next_stage, stage_make, hiir]
        rw [show (3 : Nat) = 2 + 1 from rfl, run_pipeline_step]
        simp only [make_next, stage_is_final, next_stage, stage_make, hsrc]
        rw [show (2 : Nat) = 1 + 1 from rfl, run_pipeline_step]
        simp only [make_next, stage_is_final, next_stage, stage_make, hb3, hfin, hbind]
        rw [show (1 : Nat) = 0 + 1 from rfl, run_pipeline_step]
        simp only [make_next, stage_is_final]
      refine ⟨fun e he => ?_, fun tr c2x hok => ?_⟩
      · rw [hrun] at he
        cases he
      · rw [hrun] at hok
        cases hok
        refine ⟨by decide, by decide, rfl, ?_, ?_⟩
        · rfl
        · rfl

/-- A concrete environment witnessing the pipeline claims: a backend without
native-bindings languages and trivial deterministic collaborators. -/
def env0 : Env :=
  { bindings_languages := [], src_extension := "cpp", cpu_architecture := "x86",
    get_options_id := fun _ => "opts", check_options := fun _ => true,
    get_stencil_id := fun _ _ _ _ => 7, frontend_generate := fun _ _ _ => 11,
    analysis_transform := fun _ _ => 13, as_dict := fun _ => [],
    get_pyext_class_name := fun _ => "C", get_pyext_module_name := fun _ => "m",
    pyext_generate := fun _ _ _ _ _ => [], generator_generate := fun _ _ _ => "src",
    make_build_options := fun _ _ _ => 0 }

def defn0 : Definition := { module := "mod", name := "stencil" }

def ctx0 : Ctx :=
  build_context_init env0 defn0 { frontend := some (), backend := some () }

def pipeline_result0 : List StageK × Ctx :=
  (run_pipeline env0 5 StageK.begin ctx0).toOption.getD ([], ctx0)

/-- Witness for C5: the full pipeline run on a concrete context. -/
theorem pipeline_reaches_final_within_four_witness :
    run_pipeline env0 5 StageK.begin ctx0 =
      Except.ok (pipeline_result0.1, pipeline_result0.2) ∧
    (pipeline_result0.1.Nodup ∧ pipeline_result0.1.length ≤ 5 ∧
     pipeline_result0.1.head? = some StageK.begin ∧
     stage_is_final env0 (pipeline_result0.1.getLastD StageK.begin) pipeline_result0.2 =
       Except.ok true ∧
     make_next env0 (pipeline_result0.1.getLastD StageK.begin) pipeline_result0.2 =
       Except.ok none) :=
  ⟨rfl, (pipeline_reaches_final_within_four env0 ctx0).2 pipeline_result0.1 pipeline_result0.2 rfl⟩

/-- C6: given the backend key is present, the Source stage is final exactly
when the backend has no native-bindings languages or the bindings entry of
the context is absent or falsy; otherwise its next stage is Bindings. -/
theorem source_stage_final_iff :
    ∀ (env : Env) (c : Ctx) (u : Unit), c.backend = some u →
      ((stage_is_final env StageK.source c = Except.ok true ↔
        (env.bindings_languages = [] ∨ bindings_truthy c.bindings = false)) ∧
       next_stage StageK.source = some StageK.bindings) := by
  intro env c u hb
  refine ⟨?_, rfl⟩
  by_cases hl : env.bindings_languages = []
  · simp [stage_is_final, hb, hl]
  · have hl2 : env.bindings_languages.isEmpty = false := by
      cases henv : env.bindings_languages with
      | nil => exact absurd henv hl
      | cons x xs => rfl
    by_cases hbt : bindings_truthy c.bindings = true
    · simp [stage_is_final, hb, hl, hl2, hbt]
    · simp only [Bool.not_eq_true] at hbt
      simp [stage_is_final, hb, hl, hl2, hbt]

/-- Witness for C6: the Source stage finality test on the concrete context,
whose backend has no native-bindings languages. -/
theorem source_stage_final_iff_witness :
    ctx0.backend = some () ∧
    ((stage_is_final env0 StageK.source ctx0 = Except.ok true ↔
      (env0.bindings_languages = [] ∨ bindings_truthy ctx0.bindings = false)) ∧
     next_stage StageK.source = some StageK.bindings) :=
  ⟨rfl, source_stage_final_iff env0 ctx0 () rfl⟩

/-- C10: when the bindings list is present but does not contain python, the
Bindings stage make returns the context unchanged, although the stage is
terminal. -/
theorem bindings_stage_noop_without_python :
    ∀ (env : Env) (c : Ctx) (bl : List String),
      c.bindings = some bl → "python" ∉ bl →
      (bindings_stage_make env c = Except.ok c ∧
       stage_is_final env StageK.bindings c = Except.ok true) := by
  intro env c bl hb hnp
  refine ⟨?_, rfl⟩
  simp only [bindings_stage_make, hb]
  rw [if_neg hnp]

def ctxB : Ctx :=
  { definition := defn0, bindings := some ["fortran"] }

/-- Witness for C10: the Bindings stage on a context requesting only
non-python bindings. -/
theorem bindings_stage_noop_without_python_witness :
    ctxB.bindings = some ["fortran"] ∧ ("python" : String) ∉ (["fortran"] : List String) ∧
    (bindings_stage_make env0 ctxB = Except.ok ctxB ∧
     stage_is_final env0 StageK.bindings ctxB = Except.ok true) :=
  ⟨rfl, by decide, bindings_stage_noop_without_python env0 ctxB ["fortran"] rfl (by decide)⟩

/-- A context about to run the Bindings stage with python bindings requested
and a native bindings.cpp source recorded by the Source stage. -/
def ctx1 : Ctx :=
  { definition := defn0, name := some "stencil", options := some 0,
    backend := some (), bindings := some ["python"],
    pyext_file_path := some "/tmp/ext.so", id := some 7, iir := some 13,
    bindings_src := some [("bindings.cpp", PyVal.str "native bindings code")] }

/-- The bindings.cpp source recorded under the python key of bindings_src. -/
def bindings_cpp_entry (c : Ctx) : Option PyVal :=
  match dget (c.bindings_src.getD []) ("python") with
  | some (PyVal.dict entries) => dget entries ("bindings.cpp")
  | _ => none

def bindings_once : Ctx := (bindings_stage_make env0 ctx1).toOption.getD ctx1

def bindings_twice : Ctx := (bindings_stage_make env0 bindings_once).toOption.getD ctx1

/-- Counterexample to C7 as stated: the Bindings stage make succeeds on a
concrete context, but running it a second time replaces the recorded
bindings.cpp source with the empty string, because the first run restructured
bindings_src under a python key where the second run no longer finds the
bindings.cpp entry. -/
theorem bindings_stage_make_second_run_differs :
    bindings_stage_make env0 ctx1 = Except.ok bindings_once ∧
    bindings_stage_make env0 bindings_once = Except.ok bindings_twice ∧
    bindings_cpp_entry bindings_once = some (PyVal.str "native bindings code") ∧
    bindings_cpp_entry bindings_twice = some (PyVal.str "") ∧
    bindings_twice ≠ bindings_once := by
  refine ⟨rfl, rfl, rfl, rfl, ?_⟩
  intro h
  have h2 := congrArg bindings_cpp_entry h
  rw [show bindings_cpp_entry bindings_twice = some (PyVal.str "") from rfl,
      show bindings_cpp_entry bindings_once = some (PyVal.str "native bindings code") from rfl]
    at h2
  have h3 := Option.some.inj h2
  injection h3 with h4
  exact absurd h4 (by decide)

/-- C7 amended: the Begin, IR, IIR and Source stage makes are idempotent on
any context they succeed on, and the Bindings stage make is idempotent when
python bindings are not requested; with python requested it can differ on a
second run, per the counterexample. -/
theorem stage_make_idempotent_amended :
    ∀ (env : Env) (c c2 : Ctx),
      (begin_stage_make c = Except.ok c2 → begin_stage_make c2 = Except.ok c2) ∧
      (ir_stage_make env c = Except.ok c2 → ir_stage_make env c2 = Except.ok c2) ∧
      (iir_stage_make env c = Except.ok c2 → iir_stage_make env c2 = Except.ok c2) ∧
      (source_stage_make env c = Except.ok c2 → source_stage_make env c2 = Except.ok c2) ∧
      (∀ bl, c.bindings = some bl → "python" ∉ bl →
        bindings_stage_make env c = Except.ok c2 →
        bindings_stage_make env c2 = Except.ok c2) := by
  intro env c c2
  refine ⟨?_, ?_, ?_, ?_, ?_⟩
  · intro h
    cases h
    rfl
  · intro h
    cases hfr : c.frontend with
    | none => simp [ir_stage_make, hfr] at h
    | some fv =>
    cases hbk : c.backend with
    | none => simp [ir_stage_make, hfr, hbk] at h
    | some bv =>
    cases hop : c.options with
    | none => simp [ir_stage_make, hfr, hbk, hop] at h
    | some opts =>
    cases hqn : c.qualified_name with
    | none => simp [ir_stage_make, hfr, hbk, hop, hqn] at h
    | some qn =>
    cases hex : c.externals with
    | none => simp [ir_stage_make, hfr, hbk, hop, hqn, hex] at h
    | some exts =>
    simp only [ir_stage_make, hfr, hbk, hop, hqn, hex, Except.ok.injEq] at h
    subst h
    simp [ir_stage_make, hfr, hbk, hop, hqn, hex]
  · intro h
    cases hbk : c.backend with
    | none => simp [iir_stage_make, hbk] at h
    | some bv =>
    cases hop : c.options with
    | none => simp [iir_stage_make, hbk, hop] at h
    | some opts =>
    cases hco : env.check_options opts with
    | false => simp [iir_stage_make, hbk, hop, hco] at h
    | true =>
    cases hirv : c.ir with
    | none => simp [iir_stage_make, hbk, hop, hco, hirv] at h
    | some irv =>
    simp only [iir_stage_make, hbk, hop, hco, hirv, if_true, Except.ok.injEq] at h
    subst h
    simp [iir_stage_make, hbk, hop, hco, hirv]
  · intro h
    cases hbk : c.backend with
    | none => simp [source_stage_make, hbk] at h
    | some bv =>
    cases hbl : env.bindings_languages.isEmpty with
    | true =>
      simp only [source_stage_make, hbk, hbl, if_true] at h
      cases hop : c.options with
      | none => simp [source_make_py_module, hop] at h
      | some opts =>
      cases hnm : c.name with
      | none => simp [source_make_py_module, hop, hnm] at h
      | some name =>
      cases hid : c.id with
      | none => simp [source_make_py_module, hop, hnm, hid] at h
      | some id =>
      cases hii : c.iir with
      | none => simp [source_make_py_module, hop, hnm, hid, hii] at h
      | some iirv =>
      simp only [source_make_py_module, hop, hnm, hid, hii, Except.ok.injEq] at h
      subst h
      simp [source_stage_make, source_make_py_module, hbk, hbl, hop, hnm, hid, hii]
    | false =>
      simp only [source_stage_make, hbk, hbl, Bool.false_eq_true, if_false] at h
      cases hid : c.id with
      | none => simp [source_make_lang_src, hid] at h
      | some id =>
      cases hop : c.options with
      | none => simp [source_make_lang_src, hid, hop] at h
      | some opts =>
      cases hii : c.iir with
      | none => simp [source_make_lang_src, hid, hop, hii] at h
      | some iirv =>
      simp only [source_make_lang_src, hid, hop, hii] at h
      split at h
      next v heq =>
        simp only [Except.ok.injEq] at h
        subst h
        simp only [source_stage_make, source_make_lang_src, hbk, hbl, Bool.false_eq_true,
          if_false, hid, hop, hii]
        rw [heq]
        simp [dset_dset]
      next heq =>
        simp only [Except.ok.injEq] at h
        subst h
        simp only [source_stage_make, source_make_lang_src, hbk, hbl, Bool.false_eq_true,
          if_false, hid, hop, hii]
        rw [heq]
  · intro bl hbl hnp h
    simp only [bindings_stage_make, hbl] at h
    rw [if_neg hnp] at h
    cases h
    simp only [bindings_stage_make, hbl]
    rw [if_neg hnp]

def ir_once : Ctx := (ir_stage_make env0 ctx0).toOption.getD ctx0

/-- Witness for the amended C7: idempotence of the IR stage make on the
concrete context, and of the Bindings stage make without python bindings. -/
theorem stage_make_idempotent_amended_witness :
    ir_stage_make env0 ctx0 = Except.ok ir_once ∧
    ir_stage_make env0 ir_once = Except.ok ir_once ∧
    ctxB.bindings = some ["fortran"] ∧
    bindings_stage_make env0 ctxB = Except.ok ctxB :=
  ⟨rfl, (stage_make_idempotent_amended env0 ctx0 ir_once).2.1 rfl, rfl,
    (stage_make_idempotent_amended env0 ctxB ctxB).2.2.2.2 ["fortran"] rfl (by decide) rfl⟩

theorem stage_make_preserves_identity :
    ∀ (env : Env) (s : StageK) (c c2 : Ctx),
      stage_make env s c = Except.ok c2 →
      (c2.name = c.name ∧ c2.module = c.module ∧ c2.qualified_name = c.qualified_name ∧
       c2.definition = c.definition) := by
  intro env s c c2 h
  cases s <;>
    simp only [stage_make, begin_stage_make, ir_stage_make, iir_stage_make,
      source_stage_make, source_make_py_module, source_make_lang_src,
      bindings_stage_make] at h
  all_goals repeat' split at h
  all_goals (cases h; all_goals exact ⟨rfl, rfl, rfl, rfl⟩)

/-- C8: identity-defining context keys obey first-writer-wins: a name,
module or qualified_name supplied at construction is kept over the value
derived from the definition, a missing one gets the derived default, and no
pipeline stage make replaces the name, module, qualified_name or definition
of the context it succeeds on. -/
theorem build_context_first_writer_wins :
    ∀ (env : Env) (defn : Definition) (kw : CtxKwargs),
      (∀ n, kw.name = some n → (build_context_init env defn kw).name = some n) ∧
      (kw.name = none → (build_context_init env defn kw).name = some defn.name) ∧
      (∀ m, kw.module = some m → (build_context_init env defn kw).module = some m) ∧
      (kw.module = none → (build_context_init env defn kw).module = some defn.module) ∧
      (∀ q, kw.qualified_name = some q →
        (build_context_init env defn kw).qualified_name = some q) ∧
      (∀ (s : StageK) (c c2 : Ctx), stage_make env s c = Except.ok c2 →
        (c2.name = c.name ∧ c2.module = c.module ∧ c2.qualified_name = c.qualified_name ∧
         c2.definition = c.definition)) := by
  intro env defn kw
  refine ⟨?_, ?_, ?_, ?_, ?_, stage_make_preserves_identity env⟩
  · intro n hn
    simp [build_context_init, hn]
  · intro hn
    simp [build_context_init, hn]
  · intro m hm
    simp [build_context_init, hm]
  · intro hm
    simp [build_context_init, hm]
  · intro q hq
    simp [build_context_init, hq]

def kw1 : CtxKwargs := { name := some "custom", backend := some (), frontend := some () }

/-- Witness for C8: a constructor-supplied name survives the derived default,
an omitted module falls back to the definition, and the IR stage make on the
concrete context leaves the identity keys unchanged. -/
theorem build_context_first_writer_wins_witness :
    kw1.name = some "custom" ∧
    (build_context_init env0 defn0 kw1).name = some "custom" ∧
    kw1.module = none ∧
    (build_context_init env0 defn0 kw1).module = some defn0.module ∧
    stage_make env0 StageK.ir ctx0 = Except.ok ir_once ∧
    (ir_once.name = ctx0.name ∧ ir_once.module = ctx0.module ∧
     ir_once.qualified_name = ctx0.qualified_name ∧ ir_once.definition = ctx0.definition) :=
  ⟨rfl, (build_context_first_writer_wins env0 defn0 kw1).1 "custom" rfl, rfl,
    (build_context_first_writer_wins env0 defn0 kw1).2.2.2.1 rfl, rfl,
    (build_context_first_writer_wins env0 defn0 kw1).2.2.2.2.2 StageK.ir ctx0 ir_once rfl⟩
